import Mathlib

/-!
Verification development for the kaleidoscope-rust front end: a shallow
embedding of the two-stage pipeline (character cursor, lexer, parser) of
the repository, together with theorems settling the specification claims.

Modelling conventions:
* Rust iterators over characters/tokens are modelled by a `List` that the
  buffer consumes from the front.
* Possibly diverging routines are modelled with an explicit fuel argument
  (`Nat`, structurally decreasing on every call); a result of `none` means
  the computation did not finish within the given fuel, so a routine whose
  result is `none` for every fuel diverges.
* Rust `f64` is modelled as `ℚ` carrying the exact decimal value; no claim
  depends on floating-point rounding.  Rust `char::is_alphabetic`,
  `is_alphanumeric` and `is_whitespace` are modelled by `Char.isAlpha`,
  `Char.isAlphanum` and `Char.isWhitespace`; all claims are settled on
  ASCII inputs, where they agree.
-/

namespace Kaleidoscope

/-- The two-slot lookahead buffer of `src/compiler/src/util/buffer.rs`:
`curr` and `peek` ("next" in the source) hold the window, `rest` is the
not-yet-pulled remainder of the underlying iterator. -/
structure Buffer (α : Type) where
  curr : Option α
  peek : Option α
  rest : List α
deriving Repr, DecidableEq

namespace Buffer

/-- `Buffer::new` (buffer.rs lines 8-14): both slots start as `None`; the
iterator is untouched. -/
def new (l : List α) : Buffer α := ⟨none, none, l⟩

/-- `Buffer::init` (buffer.rs lines 16-19): `curr = iter.next(); next = iter.next()`.
This is also the state of `StringInput::new` of `src/core/src/lexer/input.rs`
(lines 36-42), which fills the same two-slot window eagerly. -/
def init (l : List α) : Buffer α := ⟨l.head?, l.tail.head?, l.tail.tail⟩

/-- `Buffer::advance` (buffer.rs lines 29-32): `curr = next.take(); next = iter.next()`.
`StringInput::advance` (input.rs lines 28-33) performs the same state change
and returns the new `curr`. -/
def advance (s : Buffer α) : Buffer α := ⟨s.peek, s.rest.head?, s.rest.tail⟩

/-- Iterated `advance`. -/
def advIter : Nat → Buffer α → Buffer α
  | 0, s => s
  | n + 1, s => advIter n s.advance

end Buffer

/-- The token type as consumed by `src/core/src/parser/parser.rs` and
produced by `src/compiler/src/lexer/lexer.rs`: keywords, punctuation, a
binary operator carrying its literal character, identifier text, and a
numeric literal (`f64`, modelled as `ℚ`). -/
inductive Token
  | Def
  | Extern
  | Delimiter
  | OpeningParenthesis
  | ClosingParenthesis
  | Comma
  | Identifier (text : String)
  | Number (value : ℚ)
  | BinOp (op : Char)
deriving Repr, DecidableEq

/-- `LexerError` of `src/compiler/src/lexer/lexer.rs` lines 6-10. -/
inductive LexerError
  | NumberNotValid (text : String)
  | NotRecognized (c : Char)
deriving Repr, DecidableEq

/-- Value of a run of decimal digits, most significant first. -/
def digitsVal (l : List Char) : ℚ :=
  l.foldl (fun acc c => acc * 10 + (c.toNat - '0'.toNat : ℕ)) 0

/-- Modelled from the Rust standard library: `str::parse::<f64>` restricted
to the strings the number scanner can produce (non-empty runs of decimal
digits and dots).  Such a string parses successfully iff it contains at
least one digit and at most one dot; the resulting value is the exact
decimal value (the `f64` rounding step is not modelled, as no claim
depends on it).  On any other character the model rejects, which is all
the lexer ever needs. -/
def parseF64 (s : String) : Option ℚ :=
  let cs := s.toList
  if cs ≠ [] ∧ (∀ c ∈ cs, c.isDigit ∨ c = '.') ∧
      (cs.filter (fun c => c = '.')).length ≤ 1 ∧ (∃ c ∈ cs, c.isDigit) then
    let intPart := cs.takeWhile (fun c => c ≠ '.')
    let fracPart := (cs.dropWhile (fun c => c ≠ '.')).tail
    some (digitsVal intPart + digitsVal fracPart / (10 : ℚ) ^ fracPart.length)
  else none

/-- The whitespace-skipping loop of `Lexer::next`
(src/compiler/src/lexer/lexer.rs lines 36-39): repeatedly advance while the
current character is whitespace; stops at end of input or at the first
non-whitespace character. -/
def skipWsF : Nat → Buffer Char → Option (Buffer Char)
  | 0, _ => none
  | fuel + 1, s =>
    match s.curr with
    | none => some s
    | some c => if c.isWhitespace then skipWsF fuel s.advance else some s

/-- The comment-discarding loop of `Lexer::next` (lexer.rs lines 46-53):
advance while the current character exists and is not a newline.  The
newline itself is left in the buffer (it is consumed as whitespace by the
restarted scan). -/
def skipCommentF : Nat → Buffer Char → Option (Buffer Char)
  | 0, _ => none
  | fuel + 1, s =>
    match s.curr with
    | none => some s
    | some x => if x = '\n' then some s else skipCommentF fuel s.advance

/-- The identifier-collecting loop of `Lexer::next` (lexer.rs lines 69-77):
append the current character and advance while it is alphanumeric. -/
def collectAlnumF : Nat → Buffer Char → String → Option (String × Buffer Char)
  | 0, _, _ => none
  | fuel + 1, s, acc =>
    match s.curr with
    | some x =>
      if x.isAlphanum then collectAlnumF fuel s.advance (acc.push x) else some (acc, s)
    | none => some (acc, s)

/-- The number-collecting loop of `Lexer::next` (lexer.rs lines 88-96):
append the current character and advance while it is a dot or an ASCII
digit. -/
def collectNumF : Nat → Buffer Char → String → Option (String × Buffer Char)
  | 0, _, _ => none
  | fuel + 1, s, acc =>
    match s.curr with
    | some x =>
      if x = '.' ∨ x.isDigit then collectNumF fuel s.advance (acc.push x) else some (acc, s)
    | none => some (acc, s)

/-- One call of `<Lexer as Iterator>::next` (lexer.rs lines 30-103) as a
state transformer on the buffer.  The outer `Option` is the fuel guard
(`none` = did not finish); the inner `Option` is the iterator protocol
(`none` = end of the token sequence).  The comment branch models the
tail call `return self.next()` after discarding the comment. -/
def lexNextF : Nat → Buffer Char → Option (Option (Except LexerError Token) × Buffer Char)
  | 0, _ => none
  | fuel + 1, s =>
    match s.curr with
    | none => some (none, s)
    | some _ =>
      match skipWsF fuel s with
      | none => none
      | some s1 =>
        match s1.curr with
        | none => some (none, s1)
        | some c =>
          if c = '#' then
            match skipCommentF fuel s1.advance with
            | none => none
            | some s3 => lexNextF fuel s3
          else if c = '(' then some (some (.ok .OpeningParenthesis), s1.advance)
          else if c = ')' then some (some (.ok .ClosingParenthesis), s1.advance)
          else if c = ';' then some (some (.ok .Delimiter), s1.advance)
          else if c = ',' then some (some (.ok .Comma), s1.advance)
          else if c = '+' ∨ c = '-' ∨ c = '*' then some (some (.ok (.BinOp c)), s1.advance)
          else if c.isAlpha then
            match collectAlnumF fuel s1.advance (String.singleton c) with
            | none => none
            | some (ident, s3) =>
              some (some (.ok (if ident = "def" then .Def
                else if ident = "extern" then .Extern
                else .Identifier ident)), s3)
          else if c.isDigit ∨ c = '.' then
            match collectNumF fuel s1.advance (String.singleton c) with
            | none => none
            | some (val, s3) =>
              some (some (match parseF64 val with
                | some q => .ok (.Number q)
                | none => .error (.NumberNotValid val)), s3)
          else some (some (.error (.NotRecognized c)), s1.advance)

/-- Collecting the whole item sequence of the lexer iterator, as the
repository's tests do with `collect()`: call `next` until it reports the
end of the sequence. -/
def lexAllF : Nat → Buffer Char → Option (List (Except LexerError Token))
  | 0, _ => none
  | fuel + 1, s =>
    match lexNextF fuel s with
    | none => none
    | some (none, _) => some []
    | some (some r, s') =>
      match lexAllF fuel s' with
      | none => none
      | some l => some (r :: l)

/-- Number of characters the buffer has not yet delivered through `curr`:
the window contents plus the untouched remainder.  A strictly smaller
value means the cursor has moved strictly forward. -/
def lexMu (s : Buffer Char) : Nat :=
  (s.curr.map fun _ => 1).getD 0 + (s.peek.map fun _ => 1).getD 0 + s.rest.length

/-- Recogniser for inputs consisting solely of whitespace and `#` comments
(a comment runs to the end of the line).  The boolean state records
whether the scan is currently inside a comment. -/
def wscoAux : Bool → List Char → Bool
  | _, [] => true
  | true, c :: r => wscoAux (decide (c ≠ '\n')) r
  | false, c :: r =>
    if c.isWhitespace then wscoAux false r
    else if c = '#' then wscoAux true r
    else false

/-- An input made only of whitespace and comments. -/
def wsco (l : List Char) : Bool := wscoAux false l

/-- `Expression` of `src/compiler/src/parser/nodes.rs` lines 28-33 (the
variant names are the ones the core parser constructs). -/
inductive Expression
  | NumberExpr (value : ℚ)
  | VariableExpr (name : String)
  | BinaryExpr (op : Char) (lhs rhs : Expression)
  | CallExpr (callee : String) (args : List Expression)
deriving Repr

/-- `Prototype` of nodes.rs lines 17-21. -/
structure Prototype where
  name : String
  args : List String
deriving Repr, DecidableEq

/-- `Function` of nodes.rs lines 10-14. -/
structure Function where
  prototype : Prototype
  body : Expression
deriving Repr

/-- `ASTNode` of nodes.rs lines 1-7. -/
inductive ASTNode
  | EOF
  | Delimiter
  | ExternNode (proto : Prototype)
  | FunctionNode (fn : Function)
deriving Repr

/-- `Program = Vec<ASTNode>`. -/
abbrev Program := List ASTNode

/-- `ParseError(Option<Token>, String)` of `src/core/src/parser/parser.rs`
lines 22-29. -/
structure ParseError where
  tok : Option Token
  msg : String
deriving Repr, DecidableEq

/-- `BINOP_PRECEDENCES` and `get_binop_precedences` (parser.rs lines 8-20):
the fixed table `'<'=10, '+'=20, '-'=20, '*'=40`; any other character is an
unknown-operator parse error. -/
def getBinopPrec (binop : Char) : Except ParseError Int :=
  if binop = '<' then .ok 10
  else if binop = '+' then .ok 20
  else if binop = '-' then .ok 20
  else if binop = '*' then .ok 40
  else .error ⟨some (.BinOp binop), "Unknown binop"⟩

/-- Result of a parser routine: fuel guard outside, Rust `ParseResult`
inside, paired with the token buffer after the call. -/
abbrev PStep (α : Type) := Option (Except ParseError α × Buffer Token)

/-- Sequencing that models Rust's `?` operator: propagate fuel exhaustion
and errors, continue on success. -/
def andThenP (x : PStep α) (g : α → Buffer Token → PStep β) : PStep β :=
  match x with
  | none => none
  | some (.error e, s) => some (.error e, s)
  | some (.ok a, s) => g a s

mutual

/-- `Parser::parse_expression` (parser.rs lines 155-158): a primary
followed by `parse_bin_op_rhs(0, lhs)`. -/
def parseExpression : Nat → Buffer Token → PStep Expression
  | 0, _ => none
  | fuel + 1, s =>
    andThenP (parsePrimary fuel s) fun lhs s1 => parseBinOpRhs fuel 0 lhs s1

/-- `Parser::parse_bin_op_rhs` (parser.rs lines 161-194): while the current
token is a binary operator of precedence at least `minPrec`, consume it,
parse a primary as `rhs`, absorb a strictly tighter following operator into
`rhs` recursively, and fold into a `BinaryExpr`; a non-operator token or a
lower-precedence operator returns `lhs`. -/
def parseBinOpRhs : Nat → Int → Expression → Buffer Token → PStep Expression
  | 0, _, _, _ => none
  | fuel + 1, minPrec, lhs, s =>
    match s.curr with
    | some (.BinOp binop) =>
      match getBinopPrec binop with
      | .error e => some (.error e, s)
      | .ok currPrec =>
        if currPrec < minPrec then some (.ok lhs, s)
        else
          andThenP (parsePrimary fuel s.advance) fun rhs s2 =>
            match s2.curr with
            | some (.BinOp nextBinop) =>
              match getBinopPrec nextBinop with
              | .error e => some (.error e, s2)
              | .ok nextPrec =>
                if currPrec < nextPrec then
                  andThenP (parseBinOpRhs fuel (currPrec + 1) rhs s2) fun rhs2 s3 =>
                    parseBinOpRhs fuel minPrec (.BinaryExpr binop lhs rhs2) s3
                else parseBinOpRhs fuel minPrec (.BinaryExpr binop lhs rhs) s2
            | _ => parseBinOpRhs fuel minPrec (.BinaryExpr binop lhs rhs) s2
    | _ => some (.ok lhs, s)

/-- `Parser::parse_primary` (parser.rs lines 199-210).  Note the source's
`Number(_)` arm calls `parse_expression` (line 203), not
`parse_number_expr`; the embedding reproduces that faithfully. -/
def parsePrimary : Nat → Buffer Token → PStep Expression
  | 0, _ => none
  | fuel + 1, s =>
    match s.curr with
    | none => some (.error ⟨none, "expect a primary expression"⟩, s)
    | some (.Identifier _) => parseIdentifierExpr fuel s
    | some (.Number _) => parseExpression fuel s
    | some .OpeningParenthesis => parseParenthesisExpr fuel s
    | some t => some (.error ⟨some t, "expect identifier, number or ("⟩, s)

/-- `Parser::parse_parenthesis_expr` (parser.rs lines 218-230): advance
past the opening parenthesis, parse an expression, require and consume the
closing parenthesis. -/
def parseParenthesisExpr : Nat → Buffer Token → PStep Expression
  | 0, _ => none
  | fuel + 1, s =>
    andThenP (parseExpression fuel s.advance) fun expr s2 =>
      if s2.curr = some .ClosingParenthesis then some (.ok expr, s2.advance)
      else some (.error ⟨s2.curr, "expect )"⟩, s2)

/-- `Parser::parse_identifier_expr` (parser.rs lines 234-263): read the
identifier, advance, and decide call vs variable by testing `self.peek()`
against `OpeningParenthesis` (line 240) — the buffer's one-ahead slot, not
the token that now sits under `curr`.  In the call branch, one `advance`
("eat (") is performed and the argument loop runs. -/
def parseIdentifierExpr : Nat → Buffer Token → PStep Expression
  | 0, _ => none
  | fuel + 1, s =>
    match s.curr with
    | some (.Identifier identifier) =>
      let s1 := s.advance
      if s1.peek ≠ some .OpeningParenthesis then some (.ok (.VariableExpr identifier), s1)
      else callArgs fuel (s1.advance) [] identifier
    | t => some (.error ⟨t, "expect identifier"⟩, s)

/-- The call-argument loop of `parse_identifier_expr` (parser.rs lines
248-262): until the current token is `)`, parse an expression, then require
and consume a `Comma`; finally consume the `)` and build the `CallExpr`. -/
def callArgs : Nat → Buffer Token → List Expression → String → PStep Expression
  | 0, _, _, _ => none
  | fuel + 1, s, args, identifier =>
    if s.curr = some .ClosingParenthesis then
      some (.ok (.CallExpr identifier args), s.advance)
    else
      andThenP (parseExpression fuel s) fun arg s1 =>
        if s1.curr = some .Comma then callArgs fuel s1.advance (args ++ [arg]) identifier
        else some (.error ⟨s1.curr, "expect comma"⟩, s1)

end

/-- `Parser::parse_number_expr` (parser.rs lines 212-215).  Dead code in
the source: nothing calls it (the `Number` arm of `parse_primary` calls
`parse_expression` instead).  It returns the literal without advancing. -/
def parseNumberExpr (s : Buffer Token) : Except ParseError Expression × Buffer Token :=
  match s.curr with
  | some (.Number n) => (.ok (.NumberExpr n), s)
  | t => (.error ⟨t, "expect a number"⟩, s)

/-- The parameter loop of `Parser::parse_prototype` (parser.rs lines
133-138): while the current token is an identifier, record it and advance;
`get_curr!` turns end of input into a parse error. -/
def protoArgs : Nat → Buffer Token → List String → PStep (List String)
  | 0, _, _ => none
  | fuel + 1, s, acc =>
    match s.curr with
    | none => some (.error ⟨none, "expect identifier or )"⟩, s)
    | some (.Identifier argName) => protoArgs fuel s.advance (acc ++ [argName])
    | some _ => some (.ok acc, s)

/-- `Parser::parse_prototype` (parser.rs lines 121-145): identifier, `(`, a
run of juxtaposed identifiers, `)`. -/
def parsePrototype : Nat → Buffer Token → PStep Prototype
  | 0, _ => none
  | fuel + 1, s =>
    match s.curr with
    | some (.Identifier name) =>
      let s1 := s.advance
      if s1.curr = some .OpeningParenthesis then
        andThenP (protoArgs fuel s1.advance []) fun args s2 =>
          if s2.curr = some .ClosingParenthesis then some (.ok ⟨name, args⟩, s2.advance)
          else some (.error ⟨s2.curr, "expect identifier or )"⟩, s2)
      else some (.error ⟨s1.curr, "expect ( in prototype"⟩, s1)
    | t => some (.error ⟨t, "expect identifier in prototype"⟩, s)

/-- `Parser::parse_function` (parser.rs lines 112-119): advance past `def`,
parse a prototype, then one expression body. -/
def parseFunction : Nat → Buffer Token → PStep Function
  | 0, _ => none
  | fuel + 1, s =>
    andThenP (parsePrototype fuel s.advance) fun prototype s1 =>
      andThenP (parseExpression fuel s1) fun body s2 =>
        some (.ok ⟨prototype, body⟩, s2)

/-- `Parser::parse_extern` (parser.rs lines 147-152): advance past
`extern`, then parse a prototype. -/
def parseExternDecl : Nat → Buffer Token → PStep Prototype
  | 0, _ => none
  | fuel + 1, s => parsePrototype fuel s.advance

/-- The top-level loop of `Parser::parse` (parser.rs lines 71-95).  Mirrors
the source faithfully: `Delimiter` hits `continue` without advancing (line
80); the anonymous-function counter is (re)declared inside the loop with
value 0 and incremented once before formatting, so the synthesised name is
`"_anonymous_1"` on every iteration (lines 76, 83-86); after pushing a node
the buffer is advanced once more (line 93). -/
def parseLoop : Nat → Buffer Token → Program → PStep Program
  | 0, _, _ => none
  | fuel + 1, s, program =>
    match s.curr with
    | none => some (.ok program, s)
    | some .Def =>
      andThenP (parseFunction fuel s) fun fn s1 =>
        parseLoop fuel s1.advance (program ++ [.FunctionNode fn])
    | some .Extern =>
      andThenP (parseExternDecl fuel s) fun proto s1 =>
        parseLoop fuel s1.advance (program ++ [.ExternNode proto])
    | some .Delimiter => parseLoop fuel s program
    | some _ =>
      andThenP (parseExpression fuel s) fun body s1 =>
        parseLoop fuel s1.advance
          (program ++ [.FunctionNode ⟨⟨"_anonymous_1", []⟩, body⟩])

/-- `Parser::new` followed by `Parser::parse` (parser.rs lines 64-68,
71-95): the token buffer is `Buffer::new(lexer)` and `init()` is never
called, so the loop starts on a buffer whose both slots are `None`. -/
def parseF (fuel : Nat) (tokens : List Token) : PStep Program :=
  parseLoop fuel (Buffer.new tokens) []

/-- The same top-level loop started on a buffer on which `Buffer::init` has
been called, exposing the behaviour of the parsing routines themselves on
an actual token window. -/
def parseInitF (fuel : Nat) (tokens : List Token) : PStep Program :=
  parseLoop fuel (Buffer.init tokens) []

/-- Drop characters up to, but not including, the first newline (the
portion the comment loop of the lexer discards). -/
def dropToNl : List Char → List Char
  | [] => []
  | c :: r => if c = '\n' then c :: r else dropToNl r

/-- States a `StringInput` cursor can be in: the state built by
`StringInput::new` (input.rs lines 36-42) followed by any number of
`advance` calls.  `StringInput::advance` performs the same window shift as
`Buffer::advance` and additionally returns the new current character. -/
inductive StringInputReach (cs : List Char) : Buffer Char → Prop
  | base : StringInputReach cs (Buffer.init cs)
  | step {s : Buffer Char} : StringInputReach cs s → StringInputReach cs s.advance

/-- The token sequence of the source text `"def aFunction(a, b) a+4*b-3.2;"`
under the comma-accepting lexer (the token list its own
`complete_program` lexer test asserts). -/
def tokensC1 : List Token :=
  [.Def, .Identifier "aFunction", .OpeningParenthesis, .Identifier "a", .Comma,
   .Identifier "b", .ClosingParenthesis, .Identifier "a", .BinOp '+', .Number 4,
   .BinOp '*', .Identifier "b", .BinOp '-', .Number (16/5), .Delimiter]

/-- The token sequence of the unterminated call `"foo(1,2"`. -/
def tokensFoo12 : List Token :=
  [.Identifier "foo", .OpeningParenthesis, .Number 1, .Comma, .Number 2]

theorem init_cons_advance (x : α) (l : List α) :
    (Buffer.init (x :: l)).advance = Buffer.init l := rfl

theorem init_curr_cons (x : α) (l : List α) :
    (Buffer.init (x :: l)).curr = some x := rfl

theorem init_curr_nil : (Buffer.init ([] : List α)).curr = none := rfl

/-- The `Number` arm of `parse_primary` calls `parse_expression`, whose
first step is `parse_primary` on the same buffer: on a `Number` token both
routines exhaust any amount of fuel, i.e. the source recursion never
terminates. -/
theorem number_primary_diverges (fuel : Nat) :
    ∀ (s : Buffer Token) (q : ℚ), s.curr = some (.Number q) →
      parseExpression fuel s = none ∧ parsePrimary fuel s = none := by
  induction fuel with
  | zero => exact fun s q _ => ⟨rfl, rfl⟩
  | succ f ih =>
    intro s q h
    refine ⟨?_, ?_⟩
    · have hp : parsePrimary f s = none := (ih s q h).2
      simp [parseExpression, andThenP, hp]
    · have he : parseExpression f s = none := (ih s q h).1
      simp [parsePrimary, h, he]

/-- The loop body of `parse` never advances past a `Delimiter` (the
`continue` at parser.rs line 80), so the loop re-examines the same token
forever. -/
theorem delimiter_loop_diverges (fuel : Nat) :
    ∀ (program : Program), parseLoop fuel (Buffer.init [Token.Delimiter]) program = none := by
  induction fuel with
  | zero => exact fun _ => rfl
  | succ f ih => exact fun program => ih program

/-- Claim C2: `Buffer::new` leaves both window slots `None` and only
`init()` fills them; neither `Lexer::new` nor `Parser::new` calls `init()`
(in the embedding, both start from `Buffer.new`).  Consequently the very
first `Lexer::next` reports end of sequence without moving, collecting the
lexer yields the empty sequence for every input, and `Parser::parse`
returns `Ok` of the empty program for every token stream without touching
the buffer. -/
theorem c2_uninitialized_buffer_behavior (cs : List Char) (ts : List Token) (f : Nat) :
    (Buffer.new cs).curr = none ∧ (Buffer.new cs).peek = none ∧
    lexNextF (f + 1) (Buffer.new cs) = some (none, Buffer.new cs) ∧
    lexAllF (f + 2) (Buffer.new cs) = some [] ∧
    parseLoop (f + 1) (Buffer.new ts) [] = some (.ok [], Buffer.new ts) :=
  ⟨rfl, rfl, rfl, rfl, rfl⟩

/-- Claim C1 (code bug): on the token sequence of
`"def aFunction(a, b) a+4*b-3.2;"` the parser as written returns `Ok` of
the EMPTY program for every fuel (its buffer is never initialised), not a
one-definition program; and even started on an initialised buffer it stops
with the parse error `("expect identifier or )"` at the `Comma`, because
`parse_prototype` accepts only juxtaposed parameter identifiers.  The
claimed `FunctionDefinition` with body
`('-' ('+' a ('*' 4 b)) 3.2)` is never produced. -/
theorem c1_def_function_parse :
    (∀ f : Nat, parseF (f + 1) tokensC1 = some (.ok [], Buffer.new tokensC1)) ∧
    parseInitF 64 tokensC1 =
      some (.error ⟨some .Comma, "expect identifier or )"⟩,
        Buffer.init [.Comma, .Identifier "b", .ClosingParenthesis, .Identifier "a",
          .BinOp '+', .Number 4, .BinOp '*', .Identifier "b", .BinOp '-',
          .Number (16/5), .Delimiter]) :=
  ⟨fun _ => rfl, rfl⟩

/-- Claim C3 (code bug): `Parser::parse` does not terminate on every
finite token stream.  `parse_primary` on a `Number` token calls
`parse_expression` (parser.rs line 203) instead of the dead
`parse_number_expr`, so it exhausts every fuel; on the tokens of
`"foo(1,2"` the initialised parser diverges the same way (after wrapping
`foo` as an anonymous expression it meets the `Number` token) instead of
reporting the claimed error, while the parser as written returns
`Ok []`; a bare `Delimiter` also loops forever (`continue` without
`advance`).  The dead `parse_number_expr` would return the literal, as the
spec describes. -/
theorem c3_parse_divergence :
    (∀ (f : Nat) (q : ℚ), parsePrimary f (Buffer.init [.Number q]) = none) ∧
    (∀ f : Nat, parseInitF f tokensFoo12 = none) ∧
    (∀ f : Nat, parseF (f + 1) tokensFoo12 = some (.ok [], Buffer.new tokensFoo12)) ∧
    (∀ (f : Nat) (program : Program),
      parseLoop f (Buffer.init [Token.Delimiter]) program = none) ∧
    parseNumberExpr (Buffer.init [.Number 1]) = (.ok (.NumberExpr 1), Buffer.init [.Number 1]) := by
  have hT1 : ∀ (f : Nat) (program : Program),
      parseLoop f (Buffer.init [.Number 1, .Comma, .Number 2]) program = none := by
    intro f
    induction f with
    | zero => exact fun _ => rfl
    | succ g _ =>
      intro program
      have he : parseExpression g
          (⟨some (.Number 1), some .Comma, [.Number 2]⟩ : Buffer Token) = none :=
        (number_primary_diverges g _ 1 rfl).1
      simp [parseLoop, andThenP, he, Buffer.init]
  refine ⟨?_, ?_, fun _ => rfl, delimiter_loop_diverges, rfl⟩
  · exact fun f q => (number_primary_diverges f _ q rfl).2
  · intro f
    match f with
    | 0 => rfl
    | 1 => rfl
    | 2 => rfl
    | 3 => rfl
    | n + 4 => exact hT1 (n + 3) _

/-- Claim C4 (code bug): `parse_identifier_expr` decides call vs variable
with `self.peek()` AFTER having advanced past the identifier, i.e. it
inspects the token one past the position the claim (and the function's own
doc comment) refer to.  On `f ( )` — identifier immediately followed by
`(` — it returns a bare `VariableExpr "f"` and leaves the `(` as the
current token instead of producing a `Call`; conversely on `f + ( 2 )` —
identifier NOT followed by `(` — it takes the call branch and then
diverges on the `Number` inside the parentheses instead of returning the
variable reference. -/
theorem c4_call_disambiguation :
    parseIdentifierExpr 8
        (Buffer.init [.Identifier "f", .OpeningParenthesis, .ClosingParenthesis]) =
      some (.ok (.VariableExpr "f"),
        Buffer.init [.OpeningParenthesis, .ClosingParenthesis]) ∧
    (∀ f : Nat, parseIdentifierExpr f
        (Buffer.init [.Identifier "f", .BinOp '+', .OpeningParenthesis,
          .Number 2, .ClosingParenthesis]) = none) := by
  refine ⟨rfl, ?_⟩
  have hB : ∀ f : Nat,
      parseExpression f
        (⟨some (.Number 2), some .ClosingParenthesis, []⟩ : Buffer Token) = none :=
    fun f => (number_primary_diverges f _ 2 rfl).1
  have hParen : ∀ f : Nat,
      parseParenthesisExpr f (⟨some .OpeningParenthesis, some (.Number 2),
        [.ClosingParenthesis]⟩ : Buffer Token) = none := by
    intro f
    match f with
    | 0 => rfl
    | g + 1 => simp [parseParenthesisExpr, andThenP, Buffer.advance, hB g]
  have hPrim : ∀ f : Nat,
      parsePrimary f (⟨some .OpeningParenthesis, some (.Number 2),
        [.ClosingParenthesis]⟩ : Buffer Token) = none := by
    intro f
    match f with
    | 0 => rfl
    | g + 1 => simp [parsePrimary, hParen g]
  have hExpr : ∀ f : Nat,
      parseExpression f (⟨some .OpeningParenthesis, some (.Number 2),
        [.ClosingParenthesis]⟩ : Buffer Token) = none := by
    intro f
    match f with
    | 0 => rfl
    | g + 1 => simp [parseExpression, andThenP, hPrim g]
  have hCall : ∀ f : Nat,
      callArgs f (⟨some .OpeningParenthesis, some (.Number 2),
        [.ClosingParenthesis]⟩ : Buffer Token) [] "f" = none := by
    intro f
    match f with
    | 0 => rfl
    | g + 1 => simp [callArgs, andThenP, hExpr g]
  intro f
  match f with
  | 0 => rfl
  | g + 1 => simp [parseIdentifierExpr, Buffer.init, Buffer.advance, hCall g]

/-- Claim C5 (code bug): the anonymous-function counter is re-declared
with value 0 on every loop iteration (parser.rs line 76), so every
synthesised nullary wrapper is named `"_anonymous_1"`: on the initialised
token stream `a b c` (two bare top-level expressions reach the loop — the
extra `advance` after each pushed node swallows `b`) the two wrappers share
the name, violating pairwise distinctness; the parser as written
(uninitialised buffer) wraps nothing at all and returns `Ok []`. -/
theorem c5_anonymous_names :
    parseInitF 16 [.Identifier "a", .Identifier "b", .Identifier "c"] =
      some (.ok [.FunctionNode ⟨⟨"_anonymous_1", []⟩, .VariableExpr "a"⟩,
                 .FunctionNode ⟨⟨"_anonymous_1", []⟩, .VariableExpr "c"⟩],
        (⟨none, none, []⟩ : Buffer Token)) ∧
    (∀ f : Nat, parseF (f + 1) [.Identifier "a", .Identifier "b", .Identifier "c"] =
      some (.ok [], Buffer.new [.Identifier "a", .Identifier "b", .Identifier "c"])) :=
  ⟨rfl, fun _ => rfl⟩

/-- The parameter loop of `parse_prototype` consumes any run of juxtaposed
identifiers and stops at the first non-identifier token, with no separator
handling of any kind. -/
theorem protoArgs_juxt :
    ∀ (f : Nat) (args acc : List String) (rest : List Token), args.length < f →
      protoArgs f
        (Buffer.init (args.map Token.Identifier ++ Token.ClosingParenthesis :: rest)) acc =
      some (.ok (acc ++ args), Buffer.init (Token.ClosingParenthesis :: rest)) := by
  intro f
  induction f with
  | zero => exact fun args acc rest h => absurd h (Nat.not_lt_zero _)
  | succ g ih =>
    intro args acc rest h
    cases args with
    | nil => simp [protoArgs, init_curr_cons]
    | cons a args =>
      simp only [List.map_cons, List.cons_append]
      have hrec := ih args (acc ++ [a]) rest (by simp at h; omega)
      simp [protoArgs, init_curr_cons, init_cons_advance, hrec]

/-- `parse_prototype` accepts exactly a juxtaposed (separator-free) run of
parameter identifiers between the parentheses. -/
theorem parsePrototype_juxt :
    ∀ (f : Nat) (name : String) (args : List String) (rest : List Token),
      args.length + 2 ≤ f →
      parsePrototype f (Buffer.init (.Identifier name :: .OpeningParenthesis ::
        args.map .Identifier ++ .ClosingParenthesis :: rest)) =
      some (.ok ⟨name, args⟩, Buffer.init rest) := by
  intro f
  cases f with
  | zero => exact fun name args rest h => absurd h (by omega)
  | succ g =>
    intro name args rest h
    have hrec := protoArgs_juxt g args [] rest (by omega)
    simp [parsePrototype, init_curr_cons, init_cons_advance, andThenP, hrec]

/-- Claim C6 (counterexample): the prototype parameter convention and the
call-argument convention are not the same rule.  `parse_prototype` parses
`f ( a b )` to `Prototype f [a, b]` yet fails on `f ( a , b )` at the
comma, while `parse_identifier_expr` parses the call shape
`f ( ( a ) , )` — each argument must be FOLLOWED by a comma — yet fails
with "expect comma" on `f ( ( a ) )`, where the argument is not followed
by one. -/
theorem c6_separator_counterexample :
    parsePrototype 16 (Buffer.init [.Identifier "f", .OpeningParenthesis, .Identifier "a",
      .Identifier "b", .ClosingParenthesis]) =
      some (.ok ⟨"f", ["a", "b"]⟩, (⟨none, none, []⟩ : Buffer Token)) ∧
    parsePrototype 16 (Buffer.init [.Identifier "f", .OpeningParenthesis, .Identifier "a",
      .Comma, .Identifier "b", .ClosingParenthesis]) =
      some (.error ⟨some .Comma, "expect identifier or )"⟩,
        Buffer.init [.Comma, .Identifier "b", .ClosingParenthesis]) ∧
    parseIdentifierExpr 32 (Buffer.init [.Identifier "f", .OpeningParenthesis,
      .OpeningParenthesis, .Identifier "a", .ClosingParenthesis, .Comma,
      .ClosingParenthesis]) =
      some (.ok (.CallExpr "f" [.VariableExpr "a"]), (⟨none, none, []⟩ : Buffer Token)) ∧
    parseIdentifierExpr 32 (Buffer.init [.Identifier "f", .OpeningParenthesis,
      .OpeningParenthesis, .Identifier "a", .ClosingParenthesis, .ClosingParenthesis]) =
      some (.error ⟨some .ClosingParenthesis, "expect comma"⟩,
        Buffer.init [.ClosingParenthesis]) :=
  ⟨rfl, rfl, rfl, rfl⟩

/-- Claim C6 (amended): the two list contexts use different conventions.
Prototype parameters are juxtaposed identifiers — any parameter list
`( a1 ... an )` is accepted and a comma among the parameters is rejected
with "expect identifier or )" — whereas the call-argument loop demands a
`Comma` after every argument (including the last) and rejects juxtaposed
arguments with "expect comma". -/
theorem c6_separator_amended :
    (∀ (f : Nat) (name : String) (args : List String) (rest : List Token),
      args.length + 2 ≤ f →
      parsePrototype f (Buffer.init (.Identifier name :: .OpeningParenthesis ::
        args.map .Identifier ++ .ClosingParenthesis :: rest)) =
        some (.ok ⟨name, args⟩, Buffer.init rest)) ∧
    parsePrototype 8 (Buffer.init [.Identifier "f", .OpeningParenthesis, .Identifier "a",
      .Comma, .Identifier "b", .ClosingParenthesis]) =
      some (.error ⟨some .Comma, "expect identifier or )"⟩,
        Buffer.init [.Comma, .Identifier "b", .ClosingParenthesis]) ∧
    callArgs 16 (Buffer.init [.Identifier "x", .Comma, .ClosingParenthesis]) [] "g" =
      some (.ok (.CallExpr "g" [.VariableExpr "x"]), (⟨none, none, []⟩ : Buffer Token)) ∧
    callArgs 16 (Buffer.init [.Identifier "x", .Identifier "y", .ClosingParenthesis]) [] "g" =
      some (.error ⟨some (.Identifier "y"), "expect comma"⟩,
        Buffer.init [.Identifier "y", .ClosingParenthesis]) :=
  ⟨parsePrototype_juxt, rfl, rfl, rfl⟩

/-- Witness for the hypothesis of `c6_separator_amended`: a concrete
juxtaposed prototype, parsed by applying the theorem. -/
theorem c6_separator_amended_witness :
    (["p", "q"] : List String).length + 2 ≤ 9 ∧
    parsePrototype 9 (Buffer.init (.Identifier "w" :: .OpeningParenthesis ::
      (["p", "q"] : List String).map .Identifier ++ .ClosingParenthesis :: [])) =
      some (.ok ⟨"w", ["p", "q"]⟩, Buffer.init []) :=
  ⟨by decide, c6_separator_amended.1 9 "w" ["p", "q"] [] (by decide)⟩

/-- Claim C7 (code bug): as written, the lexer yields NO items on any
input whatsoever — `Lexer::new` never initialises its buffer, so the very
first `next` reports end of sequence — in particular it does not produce
the `NumberNotValid "1.4.2"` error its own `malformed_numbers` test
asserts.  Started on an initialised buffer, the scanning code does yield
exactly one `NumberNotValid` whose carried text is the full scanned
literal `"1.4.2"`. -/
theorem c7_malformed_number :
    (∀ (f : Nat) (cs : List Char), lexAllF (f + 2) (Buffer.new cs) = some []) ∧
    lexAllF 32 (Buffer.init ("1.4.2".toList)) =
      some [.error (.NumberNotValid "1.4.2")] :=
  ⟨fun _ _ => rfl, rfl⟩

theorem advance_mu_le (s : Buffer Char) : lexMu s.advance ≤ lexMu s := by
  rcases s with ⟨c, n, r⟩
  cases c <;> cases n <;> cases r <;> simp [lexMu, Buffer.advance] <;> omega

theorem advance_mu_lt (s : Buffer Char) (c : Char) (h : s.curr = some c) :
    lexMu s.advance < lexMu s := by
  rcases s with ⟨c0, n, r⟩
  cases c0 with
  | none => simp [Buffer.curr] at h
  | some c1 => cases n <;> cases r <;> simp [lexMu, Buffer.advance]

theorem skipWsF_mu :
    ∀ (f : Nat) (s s' : Buffer Char), skipWsF f s = some s' → lexMu s' ≤ lexMu s := by
  intro f
  induction f with
  | zero => intro s s' h; simp [skipWsF] at h
  | succ g ih =>
    intro s s' h
    rw [skipWsF] at h
    split at h
    · simp only [Option.some.injEq] at h; subst h; exact le_refl _
    · split at h
      · exact (ih _ _ h).trans (advance_mu_le s)
      · simp only [Option.some.injEq] at h; subst h; exact le_refl _

theorem skipCommentF_mu :
    ∀ (f : Nat) (s s' : Buffer Char), skipCommentF f s = some s' → lexMu s' ≤ lexMu s := by
  intro f
  induction f with
  | zero => intro s s' h; simp [skipCommentF] at h
  | succ g ih =>
    intro s s' h
    rw [skipCommentF] at h
    split at h
    · simp only [Option.some.injEq] at h; subst h; exact le_refl _
    · split at h
      · simp only [Option.some.injEq] at h; subst h; exact le_refl _
      · exact (ih _ _ h).trans (advance_mu_le s)

theorem collectAlnumF_mu :
    ∀ (f : Nat) (s : Buffer Char) (acc t : String) (s' : Buffer Char),
      collectAlnumF f s acc = some (t, s') → lexMu s' ≤ lexMu s := by
  intro f
  induction f with
  | zero => intro s acc t s' h; simp [collectAlnumF] at h
  | succ g ih =>
    intro s acc t s' h
    rw [collectAlnumF] at h
    split at h
    · split at h
      · exact (ih _ _ _ _ h).trans (advance_mu_le s)
      · simp only [Option.some.injEq, Prod.mk.injEq] at h
        rw [← h.2]
    · simp only [Option.some.injEq, Prod.mk.injEq] at h
      rw [← h.2]

theorem collectNumF_mu :
    ∀ (f : Nat) (s : Buffer Char) (acc t : String) (s' : Buffer Char),
      collectNumF f s acc = some (t, s') → lexMu s' ≤ lexMu s := by
  intro f
  induction f with
  | zero => intro s acc t s' h; simp [collectNumF] at h
  | succ g ih =>
    intro s acc t s' h
    rw [collectNumF] at h
    split at h
    · split at h
      · exact (ih _ _ _ _ h).trans (advance_mu_le s)
      · simp only [Option.some.injEq, Prod.mk.injEq] at h
        rw [← h.2]
    · simp only [Option.some.injEq, Prod.mk.injEq] at h
      rw [← h.2]

/-- Claim C9: whenever a completed call of the lexer's `next` returns a
lexical error, the number of not-yet-consumed characters has strictly
decreased — the cursor is strictly past its previous position, so a caller
that ignores the error and calls `next` again makes forward progress and
cannot loop forever.  (The lexer state is nothing but the buffer, so there
is no sentinel failed state to enter.) -/
theorem c9_error_progress :
    ∀ (f : Nat) (s : Buffer Char) (e : LexerError) (s' : Buffer Char),
      lexNextF f s = some (some (Except.error e), s') → lexMu s' < lexMu s := by
  intro f
  induction f with
  | zero => intro s e s' h; simp [lexNextF] at h
  | succ g ih =>
    intro s e s' h
    rw [lexNextF] at h
    split at h
    · simp at h
    · split at h
      · simp at h
      · rename_i s1 hws
        have hmu1 : lexMu s1 ≤ lexMu s := skipWsF_mu g s s1 hws
        split at h
        · simp at h
        · rename_i c hc1
          have hmu2 : lexMu s1.advance < lexMu s1 := advance_mu_lt s1 c hc1
          split at h
          · split at h
            · simp at h
            · rename_i s3 hsc
              have hmu4 : lexMu s' < lexMu s3 := ih s3 e s' h
              have hmu3 : lexMu s3 ≤ lexMu s1.advance := skipCommentF_mu g _ _ hsc
              omega
          · split at h
            · simp at h
            · split at h
              · simp at h
              · split at h
                · simp at h
                · split at h
                  · simp at h
                  · split at h
                    · simp at h
                    · split at h
                      · split at h
                        · simp at h
                        · simp at h
                      · split at h
                        · split at h
                          · simp at h
                          · rename_i val s3 hcn
                            split at h
                            · simp at h
                            · simp only [Option.some.injEq, Prod.mk.injEq] at h
                              have hmu3 : lexMu s3 ≤ lexMu s1.advance :=
                                collectNumF_mu g _ _ _ _ hcn
                              rw [← h.2]
                              omega
                        · simp only [Option.some.injEq, Prod.mk.injEq] at h
                          rw [← h.2]
                          omega

/-- Witness for `c9_error_progress`: lexing `"?"` from an initialised
buffer returns `NotRecognized '?'` with the offending character consumed. -/
theorem c9_error_progress_witness :
    lexMu (⟨none, none, []⟩ : Buffer Char) < lexMu (Buffer.init ['?']) :=
  c9_error_progress 8 (Buffer.init ['?']) (.NotRecognized '?') ⟨none, none, []⟩ rfl

theorem skipWsF_init :
    ∀ (l : List Char) (f : Nat), l.length < f →
      skipWsF f (Buffer.init l) =
        some (Buffer.init (l.dropWhile (fun c => c.isWhitespace))) := by
  intro l
  induction l with
  | nil =>
    intro f hf
    match f, hf with
    | g + 1, _ => rfl
  | cons c r ih =>
    intro f hf
    match f, hf with
    | g + 1, hf =>
      by_cases hw : c.isWhitespace
      · have hrec := ih g (by simp at hf; omega)
        simp [skipWsF, init_curr_cons, init_cons_advance, hw, hrec,
          List.dropWhile_cons]
      · simp [skipWsF, init_curr_cons, hw, List.dropWhile_cons]

theorem skipCommentF_init :
    ∀ (l : List Char) (f : Nat), l.length < f →
      skipCommentF f (Buffer.init l) = some (Buffer.init (dropToNl l)) := by
  intro l
  induction l with
  | nil =>
    intro f hf
    match f, hf with
    | g + 1, _ => rfl
  | cons c r ih =>
    intro f hf
    match f, hf with
    | g + 1, hf =>
      by_cases hn : c = '\n'
      · simp [skipCommentF, init_curr_cons, hn, dropToNl]
      · have hrec := ih g (by simp at hf; omega)
        simp [skipCommentF, init_curr_cons, init_cons_advance, hn, hrec, dropToNl]

theorem dropToNl_length : ∀ l : List Char, (dropToNl l).length ≤ l.length := by
  intro l
  induction l with
  | nil => exact le_refl _
  | cons c r ih =>
    by_cases hn : c = '\n'
    · simp [dropToNl, hn]
    · simp only [dropToNl, if_neg hn]
      exact ih.trans (by simp)

theorem dropWhile_length_le (p : Char → Bool) :
    ∀ l : List Char, (l.dropWhile p).length ≤ l.length := by
  intro l
  induction l with
  | nil => exact le_refl _
  | cons c r ih =>
    rw [List.dropWhile_cons]
    by_cases hp : p c
    · rw [if_pos hp]; exact ih.trans (by simp)
    · rw [if_neg hp]

theorem dropWhile_head_false (p : Char → Bool) :
    ∀ (l : List Char) (d : Char) (r1 : List Char),
      l.dropWhile p = d :: r1 → p d = false := by
  intro l
  induction l with
  | nil => intro d r1 h; simp [List.dropWhile] at h
  | cons c r ih =>
    intro d r1 h
    rw [List.dropWhile_cons] at h
    by_cases hp : p c
    · rw [if_pos hp] at h; exact ih d r1 h
    · rw [if_neg hp] at h
      simp only [List.cons.injEq] at h
      rw [← h.1]
      simpa using hp

theorem wsco_dropWhile :
    ∀ l : List Char, wscoAux false l = true →
      wscoAux false (l.dropWhile (fun c => c.isWhitespace)) = true := by
  intro l
  induction l with
  | nil => exact fun h => h
  | cons c r ih =>
    intro h
    rw [List.dropWhile_cons]
    by_cases hw : c.isWhitespace
    · rw [if_pos (by simpa using hw)]
      exact ih (by simpa [wscoAux, hw] using h)
    · rw [if_neg (by simpa using hw)]
      exact h

theorem wsco_head_hash (c : Char) (r : List Char)
    (h : wscoAux false (c :: r) = true) (hw : c.isWhitespace = false) :
    c = '#' ∧ wscoAux true r = true := by
  by_cases hh : c = '#'
  · exact ⟨hh, by simpa [wscoAux, hw, hh] using h⟩
  · simp [wscoAux, hw, hh] at h

theorem wsco_comment :
    ∀ r : List Char, wscoAux true r = true → wscoAux false (dropToNl r) = true := by
  intro r
  induction r with
  | nil => exact fun h => h
  | cons c r ih =>
    intro h
    by_cases hn : c = '\n'
    · subst hn
      simp only [wscoAux, decide_not] at h
      simp at h
      simpa [dropToNl, wscoAux, Char.isWhitespace] using h
    · simp only [dropToNl, if_neg hn]
      exact ih (by simpa [wscoAux, hn] using h)

/-- On an input made only of whitespace and comments, a completed call of
the lexer's `next` on an initialised buffer consumes everything and
reports end of the sequence, producing neither a token nor an error. -/
theorem lexNext_wsco :
    ∀ (n : Nat) (l : List Char), l.length ≤ n → ∀ f : Nat, 2 * l.length + 2 ≤ f →
      wsco l = true →
      lexNextF f (Buffer.init l) = some (none, Buffer.init ([] : List Char)) := by
  intro n
  induction n with
  | zero =>
    intro l hl f hf _
    have hnil : l = [] := List.eq_nil_of_length_eq_zero (Nat.le_zero.mp hl)
    subst hnil
    match f, hf with
    | g + 1, _ => rfl
  | succ m ih =>
    intro l hl f hf hw
    cases l with
    | nil =>
      match f, hf with
      | g + 1, _ => rfl
    | cons c r =>
      match f, hf with
      | g + 1, hf =>
        have hlen : (c :: r).length < g := by simp; simp at hf; omega
        have hws := skipWsF_init (c :: r) g hlen
        cases hdw : (c :: r).dropWhile (fun c => c.isWhitespace) with
        | nil =>
          rw [hdw] at hws
          simp [lexNextF, init_curr_cons, hws, init_curr_nil]
        | cons d r1 =>
          rw [hdw] at hws
          have hd : d.isWhitespace = false := dropWhile_head_false _ (c :: r) d r1 hdw
          have hwd : wscoAux false (d :: r1) = true := by
            have := wsco_dropWhile (c :: r) hw
            rwa [hdw] at this
          obtain ⟨hdh, hwr⟩ := wsco_head_hash d r1 hwd hd
          subst hdh
          have hr1len : r1.length < g := by
            have hle : ((c :: r).dropWhile (fun c => c.isWhitespace)).length ≤
                (c :: r).length := dropWhile_length_le _ _
            rw [hdw] at hle
            simp at hle hf ⊢
            omega
          have hsc := skipCommentF_init r1 g hr1len
          have hrec : lexNextF g (Buffer.init (dropToNl r1)) =
              some (none, Buffer.init ([] : List Char)) := by
            refine ih (dropToNl r1) ?_ g ?_ (wsco_comment r1 hwr)
            · have h1 : (dropToNl r1).length ≤ r1.length := dropToNl_length r1
              have h2 : ((c :: r).dropWhile (fun c => c.isWhitespace)).length ≤
                  (c :: r).length := dropWhile_length_le _ _
              rw [hdw] at h2
              simp at h2 hl
              omega
            · have h1 : (dropToNl r1).length ≤ r1.length := dropToNl_length r1
              have h2 : ((c :: r).dropWhile (fun c => c.isWhitespace)).length ≤
                  (c :: r).length := dropWhile_length_le _ _
              rw [hdw] at h2
              simp at h2 hf
              omega
          simp [lexNextF, init_curr_cons, hws, init_cons_advance, hsc, hrec]

/-- Claim C8: on any input consisting solely of whitespace and `#` comments
the lexer yields the empty sequence — no token and no lexical error before
end of input.  This holds both for the lexer as written (whose uninitialised
buffer yields nothing on any input) and for the scanning code run on an
initialised buffer, where the whitespace and comment loops genuinely consume
the whole input. -/
theorem c8_whitespace_comments_empty (cs : List Char) (h : wsco cs = true) :
    lexAllF (2 * cs.length + 4) (Buffer.init cs) = some [] ∧
    lexAllF (2 * cs.length + 4) (Buffer.new cs) = some [] := by
  constructor
  · have hnext := lexNext_wsco cs.length cs (le_refl _) (2 * cs.length + 3) (by omega) h
    show lexAllF (2 * cs.length + 3 + 1) (Buffer.init cs) = some []
    rw [lexAllF, hnext]
  · rfl

/-- Witness for `c8_whitespace_comments_empty` at the concrete input
`" #h\n "`. -/
theorem c8_whitespace_comments_empty_witness :
    wsco [' ', '#', 'h', '\n', ' '] = true ∧
    lexAllF (2 * ([' ', '#', 'h', '\n', ' '] : List Char).length + 4)
      (Buffer.init [' ', '#', 'h', '\n', ' ']) = some [] :=
  ⟨rfl, (c8_whitespace_comments_empty [' ', '#', 'h', '\n', ' '] rfl).1⟩

/-- Every cursor state reachable from `StringInput::new` keeps the window
coherent: an empty lookahead slot means the source is exhausted, and an
empty current slot means lookahead and source are exhausted too. -/
theorem reach_inv (cs : List Char) (s : Buffer Char) (h : StringInputReach cs s) :
    (s.peek = none → s.rest = []) ∧ (s.curr = none → s.peek = none ∧ s.rest = []) := by
  induction h with
  | base =>
    cases cs with
    | nil => exact ⟨fun _ => rfl, fun _ => ⟨rfl, rfl⟩⟩
    | cons a l =>
      cases l with
      | nil => exact ⟨fun _ => rfl, fun hc => by simp [Buffer.init] at hc⟩
      | cons b l2 =>
        exact ⟨fun hp => by simp [Buffer.init] at hp,
               fun hc => by simp [Buffer.init] at hc⟩
  | step _ ih =>
    rename_i s0 _
    constructor
    · intro hp
      have hp' : s0.rest.head? = none := hp
      cases hrr : s0.rest with
      | nil =>
        show s0.rest.tail = []
        rw [hrr]
        rfl
      | cons x xs => rw [hrr] at hp'; simp at hp'
    · intro hc
      have hc' : s0.peek = none := hc
      have h1 : s0.rest = [] := ih.1 hc'
      refine ⟨?_, ?_⟩
      · show s0.rest.head? = none
        rw [h1]
        rfl
      · show s0.rest.tail = []
        rw [h1]
        rfl

/-- Claim C10 (counterexample): a `Buffer` fresh from `Buffer::new` over
the non-empty source `['a']` is a cursor state whose current element is
`None` (end-of-input as reported by `curr()`), yet after two `advance()`
calls the current element is `Some 'a'` — advancing from that state is not
idempotent. -/
theorem c10_advance_counterexample :
    (Buffer.new (['a'] : List Char)).curr = none ∧
    ((Buffer.new (['a'] : List Char)).advance.advance).curr = some 'a' :=
  ⟨rfl, rfl⟩

/-- Claim C10 (amended): advancing past the end is idempotent on fully
exhausted cursor states — current slot, lookahead slot and underlying
source all empty — where `advance` leaves the state unchanged and keeps
yielding end-of-input for any number of calls; and every `StringInput`
state reachable from `StringInput::new` whose current character is `None`
is of this fully exhausted form, so for `StringInput` the original claim
holds.  (A fresh `Buffer::new` state is not of this form when the source
is non-empty, which is what the counterexample exhibits.) -/
theorem c10_advance_amended :
    (∀ t : Buffer Char, t.curr = none → t.peek = none → t.rest = [] →
      t.advance = t ∧ ∀ n, (Buffer.advIter n t).curr = none) ∧
    (∀ (cs : List Char) (s : Buffer Char), StringInputReach cs s → s.curr = none →
      s.advance = s ∧ ∀ n, (Buffer.advIter n s).curr = none) := by
  have hfix : ∀ t : Buffer Char, t.advance = t → ∀ n, Buffer.advIter n t = t := by
    intro t ht n
    induction n with
    | zero => rfl
    | succ m ih =>
      show Buffer.advIter m t.advance = t
      rw [ht]
      exact ih
  have hmain : ∀ t : Buffer Char, t.curr = none → t.peek = none → t.rest = [] →
      t.advance = t ∧ ∀ n, (Buffer.advIter n t).curr = none := by
    intro t h1 h2 h3
    rcases t with ⟨c, p, r⟩
    simp only [Buffer.curr] at h1
    simp only [Buffer.peek] at h2
    simp only [Buffer.rest] at h3
    subst h1; subst h2; subst h3
    have hadv : (⟨none, none, []⟩ : Buffer Char).advance = ⟨none, none, []⟩ := rfl
    refine ⟨hadv, fun n => ?_⟩
    rw [hfix _ hadv n]
  refine ⟨hmain, ?_⟩
  intro cs s hr hc
  obtain ⟨hp, hrest⟩ := (reach_inv cs s hr).2 hc
  exact hmain s hc hp hrest

/-- Witness for `c10_advance_amended`: the exhausted `StringInput` state
reached by advancing once on the one-character source `['a']`. -/
theorem c10_advance_amended_witness :
    (Buffer.init ['a']).advance.advance = (Buffer.init ['a']).advance ∧
    ∀ n, (Buffer.advIter n (Buffer.init ['a']).advance).curr = none :=
  c10_advance_amended.2 ['a'] (Buffer.init ['a']).advance
    (.step .base) rfl

end Kaleidoscope
